import Mathlib

/-!
Verification of the personal-finance analytics pipeline
(`src/dashboard_old.py`, `src/dashboard.py`, `src/models.py`, `src/clean_data.py`).

A pandas `DataFrame` is embedded as an ordered list of column names plus a
list of rows, each row a list of cells aligned with the columns.  A cell is
either missing (`NaN`/`NaT`), a rational number, a free string, or a
timezone-naive date (represented by its calendar-month index, the only part
of a date the analysed code inspects).  `pd.to_numeric(..., errors="coerce")`
and `pd.to_datetime(..., errors="coerce")` are embedded as coercions that map
a cell of the right kind to itself and every other cell to `null`: a string
that pandas would parse successfully is represented directly as a `num` /
`date` cell, an unparseable one as a `str` cell.  (Pandas additionally
interprets raw integers fed to `to_datetime` as epoch timestamps; integer
epoch-valued date columns are outside the embedding's domain.)
-/

deriving instance DecidableEq for Except

namespace PF

/-- One cell of a data frame. -/
inductive Cell where
  | null
  | num (q : ℚ)
  | str (s : String)
  | date (m : ℤ)
deriving DecidableEq, Repr

/-- A data frame: ordered column names and rows of cells. -/
structure DF where
  cols : List String
  rows : List (List Cell)
deriving DecidableEq, Repr

/-- Well-formed frame: every row has exactly one cell per column
(true of every pandas DataFrame). -/
def DF.WF (df : DF) : Prop := ∀ r ∈ df.rows, r.length = df.cols.length

instance (df : DF) : Decidable df.WF := by
  unfold DF.WF; infer_instance

/-- Cell of row `r` in column position `i` (missing positions read as null). -/
def cellAt (r : List Cell) (i : ℕ) : Cell := (r.get? i).getD .null

/-- Position of the first column named `c`. -/
def findIdxA : List String → String → Option ℕ
  | [], _ => none
  | c :: t, x => if c = x then some 0 else (findIdxA t x).map (· + 1)

def DF.colIdx (df : DF) (c : String) : Option ℕ := findIdxA df.cols c

/-- The values of the first column named `c`, if it exists. -/
def DF.column (df : DF) (c : String) : Option (List Cell) :=
  (df.colIdx c).map (fun i => df.rows.map (fun r => cellAt r i))

/-- `startsList h k`: `k` is an initial segment of `h`. -/
def startsList : List Char → List Char → Bool
  | _, [] => true
  | [], _ :: _ => false
  | h :: hs, k :: ks => h == k && startsList hs ks

/-- `hasSub h k`: `k` occurs contiguously inside `h`. -/
def hasSub : List Char → List Char → Bool
  | [], k => k.isEmpty
  | h :: t, k => startsList (h :: t) k || hasSub t k

/-- `col.lower()` (column names are ASCII, where `Char.toLower` agrees with
Python `str.lower`). -/
def lowerList (s : String) : List Char := s.toList.map Char.toLower

/-- `detect_column` (dashboard_old.py:77-83): first column whose lowercased
name contains any of the keywords. -/
def detectColumn (df : DF) (keys : List String) : Option String :=
  df.cols.find? (fun c => keys.any (fun k => hasSub (lowerList c) k.toList))

def dateKeys : List String := ["date", "time", "day"]
def amountKeys : List String := ["amount", "value", "money", "transaction", "debit", "credit"]
def catKeys : List String := ["category", "type"]
def descKeys : List String := ["desc", "merchant", "details"]

/-- `pd.to_numeric(col, errors="coerce")` on one cell. -/
def toNumeric : Cell → Cell
  | .num q => .num q
  | _ => .null

/-- `pd.to_datetime(col, errors="coerce").dt.tz_localize(None)` on one cell. -/
def toDatetime : Cell → Cell
  | .date m => .date m
  | _ => .null

def Cell.isNull : Cell → Bool
  | .null => true
  | _ => false

/-- `df[c] = df.rows.map f` for a per-row function `f`: overwrite the column
in place if present, append it on the right otherwise (pandas column
assignment). -/
def DF.mapSet (df : DF) (c : String) (f : List Cell → Cell) : DF :=
  match df.colIdx c with
  | some i => ⟨df.cols, df.rows.map (fun r => r.set i (f r))⟩
  | none => ⟨df.cols ++ [c], df.rows.map (fun r => r ++ [f r])⟩

/-- `df[c] = vals` for a precomputed list of values aligned with the rows. -/
def DF.setVals (df : DF) (c : String) (vals : List Cell) : DF :=
  match df.colIdx c with
  | some i => ⟨df.cols, (df.rows.zip vals).map (fun p => p.1.set i p.2)⟩
  | none => ⟨df.cols ++ [c], (df.rows.zip vals).map (fun p => p.1 ++ [p.2])⟩

/-- `df[tgt] = f(df[src])` applied elementwise, reading `src` at call time. -/
def DF.mapSetFrom (df : DF) (tgt src : String) (f : Cell → Cell) : DF :=
  match df.colIdx src with
  | some i => df.mapSet tgt (fun r => f (cellAt r i))
  | none => df.mapSet tgt (fun _ => f .null)

/-! ## Dataset normalizer: `validate_dataset` (dashboard_old.py:85-140) -/

inductive VErr where
  | noDateColumn
  | noAmountColumn
  | typeErr
deriving DecidableEq, Repr

/-- `.fillna(0)` followed by the numeric use of one cell of the debit/credit
fallback: missing values count as 0, genuinely non-numeric values make the
pandas subtraction raise. -/
def cellFill0 : Cell → Option ℚ
  | .null => some 0
  | .num q => some q
  | _ => none

/-- `df.get("Credit", 0).fillna(0) - df.get("Debit", 0).fillna(0)`
(dashboard_old.py:106).  `df.get` matches the exact capitalized names; when a
name is absent the scalar default `0` has no `.fillna` and the statement
raises, as it also does on a non-numeric cell. -/
def fallbackAmounts (df : DF) : Option (List Cell) :=
  match df.colIdx "Credit", df.colIdx "Debit" with
  | some ci, some di =>
      df.rows.mapM (fun r => do
        let c ← cellFill0 (cellAt r ci)
        let d ← cellFill0 (cellAt r di)
        pure (Cell.num (c - d)))
  | _, _ => none

/-- `"Income" if x > 0 else "Expense"` (dashboard_old.py:125); a missing
amount compares false, hence "Expense". -/
def deriveType : Cell → Cell
  | .num q => if 0 < q then .str "Income" else .str "Expense"
  | _ => .str "Expense"

/-- `{c.lower() for c in df.columns}` (dashboard_old.py:105). -/
def lowerCols (df : DF) : List (List Char) := df.cols.map lowerList

/-- The `Category` assignment (dashboard_old.py:112-115): copy the detected
column, else the constant `"Uncategorized"`. -/
def setCat (d : DF) (cc? : Option String) : DF :=
  match cc? with
  | some cc => d.mapSetFrom "Category" cc id
  | none => d.mapSet "Category" (fun _ => .str "Uncategorized")

/-- The `Description` assignment (dashboard_old.py:118-121). -/
def setDesc (d : DF) (xc? : Option String) : DF :=
  match xc? with
  | some xc => d.mapSetFrom "Description" xc id
  | none => d.mapSet "Description" (fun _ => .str "Unknown")

/-- The `Type` derivation when absent (dashboard_old.py:124-125). -/
def setTypeIfAbsent (d : DF) : DF :=
  if d.cols.contains "Type" then d else d.mapSetFrom "Type" "Amount" deriveType

/-- The `Category` / `Description` / `Type` assignments of `validate_dataset`
(dashboard_old.py:111-125), applied after the amount step; `cc?` / `xc?` are
the category and description columns detected on the original frame. -/
def assignTail (d2 : DF) (cc? xc? : Option String) : DF :=
  setTypeIfAbsent (setDesc (setCat d2 cc?) xc?)

/-- The in-place column assignments of `validate_dataset`
(dashboard_old.py:89-125), i.e. everything the caller's frame object
undergoes before the function rebinds its local name to a copy.  Returns the
mutated frame paired with the error, if any, at which `st.stop()` aborts. -/
def validateAssign (df0 : DF) : DF × Option VErr :=
  let dc? := detectColumn df0 dateKeys
  let ac? := detectColumn df0 amountKeys
  let cc? := detectColumn df0 catKeys
  let xc? := detectColumn df0 descKeys
  match dc? with
  | none => (df0, some .noDateColumn)
  | some dc =>
    let d1 := df0.mapSetFrom "Date" dc toDatetime
    let amtStep : DF × Option VErr :=
      match ac? with
      | some ac => (d1.mapSetFrom "Amount" ac toNumeric, none)
      | none =>
          if "debit".toList ∈ lowerCols d1 ∧ "credit".toList ∈ lowerCols d1 then
            match fallbackAmounts d1 with
            | some vals => (d1.setVals "Amount" vals, none)
            | none => (d1, some .typeErr)
          else (d1, some .noAmountColumn)
    match amtStep with
    | (d, some e) => (d, some e)
    | (d2, none) => (assignTail d2 cc? xc?, none)

/-- `.clip(-1e6, 1e6)` on one cell. -/
def clipCell : Cell → Cell
  | .num q => .num (max (-1000000) (min q 1000000))
  | c => c

/-- `df.dropna(subset=["Date","Amount"]).copy()` followed by the clip of the
`Amount` column (dashboard_old.py:128-129). -/
def dropClip (d : DF) : DF :=
  match d.colIdx "Date", d.colIdx "Amount" with
  | some i, some j =>
      let kept := d.rows.filter (fun r => !(cellAt r i).isNull && !(cellAt r j).isNull)
      ⟨d.cols, kept.map (fun r => r.set j (clipCell (cellAt r j)))⟩
  | _, _ => d

/-- `validate_dataset` (dashboard_old.py:85-140): canonical table or a hard
failure (`st.error` + `st.stop`), in which case no table is produced. -/
def validateDataset (df : DF) : Except VErr DF :=
  match validateAssign df with
  | (d, none) => .ok (dropClip d)
  | (_, some e) => .error e

/-- The state of the caller's frame object after `validate_dataset` returns
or stops: all in-place column assignments, but not the row-dropping and
clipping, which happen on a rebound copy. -/
def validateCallerView (df : DF) : DF := (validateAssign df).1

/-! ## Anomaly detector: `detect_anomalies` (models.py:69-94) -/

inductive AErr where
  | nonFiniteInput
deriving DecidableEq, Repr

def cellQ : Cell → Option ℚ
  | .num q => some q
  | _ => none

/-- Modelled from the spec (§4.2): the `IsolationForest(contamination=0.05,
random_state=42).fit_predict` scoring itself is external library code; it is
modelled as deterministic isolation-style flagging of (about) the 5% of
values farthest from the mean.  Only totality, determinism and the
`Normal`/`Anomaly` labelling alphabet are relied on by the claims. -/
def isoLabels (vals : List ℚ) : List Cell :=
  let n := vals.length
  let k := (n + 19) / 20
  let μ := (vals.sum) / (n : ℚ)
  vals.map (fun x =>
    if k ≤ (vals.filter (fun y => decide (|x - μ| < |y - μ|))).length then
      Cell.str "Normal"
    else
      Cell.str "Anomaly")

/-- The coerced amount column `pd.to_numeric(df["Amount"], errors="coerce")`
(models.py:84). -/
def coercedAmounts (df : DF) : Option (List Cell) :=
  (df.colIdx "Amount").map (fun j => df.rows.map (fun r => toNumeric (cellAt r j)))

/-- `detect_anomalies` (models.py:69-94) on an already-loaded frame.  With no
`Amount` column or no rows the frame is returned unchanged; otherwise the
amounts are coerced to numeric and handed whole to `IsolationForest.fit`,
which rejects non-finite input (`check_array`), so any null in the coerced
column aborts the call; on success an `Anomaly` column of
`"Normal"`/`"Anomaly"` labels is attached. -/
def detectAnomalies (df : DF) : Except AErr DF :=
  match coercedAmounts df with
  | none => .ok df
  | some cs =>
      if df.rows = [] then .ok df
      else
        let d1 := df.setVals "Amount" cs
        if Cell.null ∈ cs then .error .nonFiniteInput
        else .ok (d1.setVals "Anomaly" (isoLabels (cs.filterMap cellQ)))

/-! ## Forecaster: `forecast_expenses` (models.py:98-159) -/

inductive FErr where
  | missingColumns
  | noExpenseData
  | insufficientHistory
deriving DecidableEq, Repr

/-- The expense rows surviving
`df[df["Amount"] < 0].dropna(subset=["Date"])` after both coercions
(models.py:121-125), as (month, amount) pairs. -/
def expensePairs (df : DF) : Option (List (ℤ × ℚ)) :=
  match df.colIdx "Date", df.colIdx "Amount" with
  | some i, some j =>
      some (df.rows.filterMap (fun r =>
        match toNumeric (cellAt r j), toDatetime (cellAt r i) with
        | .num q, .date m => if q < 0 then some (m, q) else none
        | _, _ => none))
  | _, _ => none

def insertSorted (x : ℤ) : List ℤ → List ℤ
  | [] => [x]
  | y :: t => if x ≤ y then x :: y :: t else y :: insertSorted x t

def sortZ : List ℤ → List ℤ
  | [] => []
  | x :: t => insertSorted x (sortZ t)

def dedupZ : List ℤ → List ℤ
  | [] => []
  | x :: t => if x ∈ t then dedupZ t else x :: dedupZ t

/-- `groupby(month).sum().abs()` sorted ascending by month (models.py:130-136):
the monthly expense series. -/
def monthlyOf (ps : List (ℤ × ℚ)) : List (ℤ × ℚ) :=
  (sortZ (dedupZ (ps.map Prod.fst))).map
    (fun m => (m, |((ps.filter (fun p => decide (p.1 = m))).map Prod.snd).sum|))

/-- The monthly expense series of a frame, when the required columns exist. -/
def monthlySeries (df : DF) : Option (List (ℤ × ℚ)) :=
  (expensePairs df).map monthlyOf

/-- One forecast row: `ds`, `yhat`, `yhat_lower`, `yhat_upper`. -/
structure FPoint where
  ds : ℤ
  yhat : ℚ
  lo : ℚ
  hi : ℚ
deriving DecidableEq, Repr

instance : Inhabited FPoint := ⟨⟨0, 0, 0, 0⟩⟩

def lastMonth (ms : List (ℤ × ℚ)) : ℤ := ((ms.getLast?).map Prod.fst).getD 0

/-- Modelled from the spec (§4.4): `Prophet(interval_width=w).fit(monthly)`
followed by `predict` is external library code; it is modelled as an additive
linear-trend extrapolation whose point estimate at month `m` continues the
endpoint-to-endpoint trend of the history, with symmetric native uncertainty
bounds of half-width `w · Σ|y|`. -/
def prophetEstimate (ms : List (ℤ × ℚ)) (w : ℚ) (m : ℤ) : FPoint :=
  let first := (ms.head?).getD (0, 0)
  let last := (ms.getLast?).getD (0, 0)
  let slope : ℚ := if last.1 = first.1 then 0 else (last.2 - first.2) / ((last.1 - first.1 : ℤ) : ℚ)
  let yhat := last.2 + slope * ((m - last.1 : ℤ) : ℚ)
  let spread := w * ((ms.map (fun p => |p.2|)).sum)
  ⟨m, yhat, yhat - spread, yhat + spread⟩

/-- `m.make_future_dataframe(periods, freq="MS")` + `m.predict`: fitted
values over the history months followed by `periods` contiguous future
months starting right after the last history month. -/
def prophetFull (ms : List (ℤ × ℚ)) (h : ℕ) (w : ℚ) : List FPoint :=
  ms.map (fun p => prophetEstimate ms w p.1) ++
    (List.range h).map (fun i : ℕ => prophetEstimate ms w (lastMonth ms + 1 + (i : ℤ)))

/-- `fc.tail(periods)` (models.py:155). -/
def tailPeriods (l : List FPoint) (h : ℕ) : List FPoint := l.drop (l.length - h)

/-- `forecast_expenses` (models.py:98-159) on an already-loaded frame
(the saved plot and CSV carry the same rows as the returned tail). -/
def forecastExpenses (df : DF) (h : ℕ) (w : ℚ) : Except FErr (List FPoint) :=
  match expensePairs df with
  | none => .error .missingColumns
  | some ps =>
      if ps = [] then .error .noExpenseData
      else
        let ms := monthlyOf ps
        if ms.length < 3 then .error .insufficientHistory
        else .ok (tailPeriods (prophetFull ms h w) h)

/-! ## Category classifier inference: `predict_category` (models.py:56-65) -/

inductive CatErr where
  | modelNotTrained
deriving DecidableEq, Repr

/-- The persisted `(clf, vec)` artifact, abstracted by the prediction map it
induces (`vec.transform` then `clf.predict`). -/
structure Categorizer where
  predictFn : String → String

/-- `predict_category` (models.py:56-65): `os.path.exists(model_path)` is
embedded as the artifact being present; absence raises the model-not-trained
error, presence predicts a label. -/
def predictCategory (artifact : Option Categorizer) (description : String) :
    Except CatErr String :=
  match artifact with
  | none => .error .modelNotTrained
  | some m => .ok (m.predictFn description)

/-! ## Cleaning step: `clean_transactions` (clean_data.py:6-22) -/

inductive CErr where
  | missingColumn
  | typeErr
deriving DecidableEq, Repr

/-- `pandas.Series.str.title` on one cell: title-case a string, anything
non-string becomes null (the `.str` accessor yields NaN there). -/
def titleAux : Bool → List Char → List Char
  | _, [] => []
  | atStart, ch :: t =>
      if ch.isAlpha then
        (if atStart then ch.toUpper else ch.toLower) :: titleAux false t
      else ch :: titleAux true t

def titleCase (s : String) : String := ⟨titleAux true s.toList⟩

def strTitleCell : Cell → Cell
  | .str s => .str (titleCase s)
  | _ => .null

/-- Keep the first occurrence of each row (`drop_duplicates`):
rows already seen are dropped. -/
def dedupAux (seen : List (List Cell)) : List (List Cell) → List (List Cell)
  | [] => []
  | r :: t => if r ∈ seen then dedupAux seen t else r :: dedupAux (r :: seen) t

def dedupRows (rs : List (List Cell)) : List (List Cell) := dedupAux [] rs

def rowNoNull (r : List Cell) : Bool := r.all (fun c => !c.isNull)

/-- The first half of `clean_transactions`: parse `Date`, then
`drop_duplicates().dropna()` — rows with a missing value in ANY column are
dropped (clean_data.py:9-12). -/
def cleanDedupDropna (df : DF) : DF :=
  let d1 := df.mapSetFrom "Date" "Date" toDatetime
  ⟨d1.cols, (dedupRows d1.rows).filter rowNoNull⟩

/-- `clean_transactions` (clean_data.py:6-22) on an already-loaded frame:
parse dates, drop duplicates and rows with any missing value, title-case
`Category`, recompute `Type` from the sign of `Amount`.  Missing `Date` /
`Category` / `Amount` columns raise `KeyError`; a non-numeric `Amount`
surviving the cleaning makes the `x > 0` comparison raise. -/
def cleanTransactions (df : DF) : Except CErr DF :=
  if df.colIdx "Date" = none then .error .missingColumn
  else
    let d2 := cleanDedupDropna df
    match d2.colIdx "Category" with
    | none => .error .missingColumn
    | some _ =>
        let d3 := d2.mapSetFrom "Category" "Category" strTitleCell
        match d3.colIdx "Amount" with
        | none => .error .missingColumn
        | some j =>
            if d3.rows.all (fun r => (cellQ (cellAt r j)).isSome) then
              .ok (d3.mapSetFrom "Type" "Amount" deriveType)
            else .error .typeErr

/-! ## KPI block (dashboard.py:244-247, dashboard_old.py:260-263) -/

/-- The numeric values of the `Amount` column (pandas sums skip NaN). -/
def amountsOf (df : DF) : List ℚ :=
  ((df.column "Amount").getD []).filterMap cellQ

/-- `df_filt[df_filt["Amount"] > 0]["Amount"].sum()`. -/
def totalIncome (df : DF) : ℚ :=
  ((amountsOf df).filter (fun q => decide (0 < q))).sum

/-- `df_filt[df_filt["Amount"] < 0]["Amount"].sum() * -1`
(dashboard_old.py:261). -/
def totalExpensesOld (df : DF) : ℚ :=
  (((amountsOf df).filter (fun q => decide (q < 0))).sum) * (-1)

/-- `abs(df_filt[df_filt["Amount"] < 0]["Amount"].sum())` (dashboard.py:245). -/
def totalExpensesNew (df : DF) : ℚ :=
  |((amountsOf df).filter (fun q => decide (q < 0))).sum|

def netSavings (df : DF) : ℚ := totalIncome df - totalExpensesOld df

/-- `(net_savings / total_income * 100) if total_income > 0 else 0.0`. -/
def savingsRate (df : DF) : ℚ :=
  if 0 < totalIncome df then netSavings df / totalIncome df * 100 else 0

/-! ## Toolkit: cells, column indices, and column updates -/

theorem cellAt_set_self {r : List Cell} {i : ℕ} (h : i < r.length) (v : Cell) :
    cellAt (r.set i v) i = v := by
  simp [cellAt, List.getElem?_set_eq_of_lt, h]

theorem cellAt_set_ne {r : List Cell} {i j : ℕ} (h : i ≠ j) (v : Cell) :
    cellAt (r.set i v) j = cellAt r j := by
  simp [cellAt, List.getElem?_set_ne, h]

theorem cellAt_append_lt {r l : List Cell} {j : ℕ} (h : j < r.length) :
    cellAt (r ++ l) j = cellAt r j := by
  simp [cellAt, List.getElem?_append_left, h]

theorem cellAt_append_self {r : List Cell} (v : Cell) :
    cellAt (r ++ [v]) r.length = v := by
  simp [cellAt, List.getElem?_append_right, le_refl]

theorem cellAt_len_le {r : List Cell} {j : ℕ} (h : r.length ≤ j) :
    cellAt r j = .null := by
  simp [cellAt, List.getElem?_eq_none, h]

theorem lt_of_cellAt_ne_null {r : List Cell} {j : ℕ} (h : cellAt r j ≠ .null) :
    j < r.length := by
  by_contra hh
  push_neg at hh
  exact h (cellAt_len_le hh)

theorem findIdxA_get {l : List String} {x : String} {i : ℕ}
    (h : findIdxA l x = some i) : l.get? i = some x := by
  induction l generalizing i with
  | nil => simp [findIdxA] at h
  | cons c t ih =>
    by_cases hc : c = x
    · simp only [findIdxA, if_pos hc] at h
      cases h
      simp [hc]
    · simp only [findIdxA, if_neg hc, Option.map_eq_some'] at h
      obtain ⟨i', hi', rfl⟩ := h
      simpa using ih hi'

theorem findIdxA_lt {l : List String} {x : String} {i : ℕ}
    (h : findIdxA l x = some i) : i < l.length := by
  have := findIdxA_get h
  exact (List.get?_eq_some.mp this).1

theorem findIdxA_eq_none {l : List String} {x : String} :
    findIdxA l x = none ↔ x ∉ l := by
  induction l with
  | nil => simp [findIdxA]
  | cons c t ih =>
    by_cases hc : c = x
    · simp [findIdxA, hc]
    · simp [findIdxA, hc, ih, Ne.symm hc]

theorem findIdxA_append_ne {l : List String} {c x : String} (h : c ≠ x) :
    findIdxA (l ++ [c]) x = findIdxA l x := by
  induction l with
  | nil => simp [findIdxA, h]
  | cons a t ih =>
    by_cases ha : a = x
    · simp [findIdxA, ha]
    · simp [findIdxA, ha, ih]

theorem findIdxA_append_self {l : List String} {x : String} (h : x ∉ l) :
    findIdxA (l ++ [x]) x = some l.length := by
  induction l with
  | nil => simp [findIdxA]
  | cons a t ih =>
    have ha : a ≠ x := fun hax => h (hax ▸ List.mem_cons_self a t)
    have ht : x ∉ t := fun hxt => h (List.mem_cons_of_mem a hxt)
    simp [findIdxA, ha, ih ht]

theorem colIdx_name {df : DF} {c : String} {i : ℕ} (h : df.colIdx c = some i) :
    df.cols.get? i = some c := findIdxA_get h

theorem colIdx_lt {df : DF} {c : String} {i : ℕ} (h : df.colIdx c = some i) :
    i < df.cols.length := findIdxA_lt h

theorem colIdx_ne_of_name_ne {df : DF} {c c' : String} {i j : ℕ}
    (hc : c ≠ c') (hi : df.colIdx c = some i) (hj : df.colIdx c' = some j) :
    i ≠ j := by
  intro hij
  apply hc
  have h1 := colIdx_name hi
  have h2 := colIdx_name hj
  rw [hij, h2] at h1
  exact (Option.some.inj h1).symm

theorem startsList_refl (l : List Char) : startsList l l = true := by
  induction l with
  | nil => rfl
  | cons a t ih => simp [startsList, ih]

theorem hasSub_refl (l : List Char) : hasSub l l = true := by
  cases l with
  | nil => rfl
  | cons a t => simp [hasSub, startsList_refl]

/-- Column `c` resolves to some index and every row satisfies `P` there. -/
def colPred (df : DF) (c : String) (P : Cell → Prop) : Prop :=
  ∃ j, df.colIdx c = some j ∧ ∀ r ∈ df.rows, P (cellAt r j)

theorem WF_mapSet {df : DF} (hwf : df.WF) (c : String) (f : List Cell → Cell) :
    (df.mapSet c f).WF := by
  unfold DF.mapSet
  cases hidx : df.colIdx c with
  | some i =>
      intro r hr
      simp only [List.mem_map] at hr
      obtain ⟨r0, hr0, rfl⟩ := hr
      simp [hwf r0 hr0]
  | none =>
      intro r hr
      simp only [List.mem_map] at hr
      obtain ⟨r0, hr0, rfl⟩ := hr
      simp [hwf r0 hr0]

theorem rows_length_mapSet (df : DF) (c : String) (f : List Cell → Cell) :
    (df.mapSet c f).rows.length = df.rows.length := by
  unfold DF.mapSet
  cases df.colIdx c <;> simp

theorem WF_setVals {df : DF} {vals : List Cell} (hwf : df.WF) (c : String) :
    (df.setVals c vals).WF := by
  unfold DF.setVals
  cases hidx : df.colIdx c with
  | some i =>
      intro r hr
      simp only [List.mem_map] at hr
      obtain ⟨p, hp, rfl⟩ := hr
      simp [hwf p.1 (List.of_mem_zip hp).1]
  | none =>
      intro r hr
      simp only [List.mem_map] at hr
      obtain ⟨p, hp, rfl⟩ := hr
      simp [hwf p.1 (List.of_mem_zip hp).1]

theorem rows_length_setVals (df : DF) (c : String) {vals : List Cell}
    (hlen : vals.length = df.rows.length) :
    (df.setVals c vals).rows.length = df.rows.length := by
  unfold DF.setVals
  cases df.colIdx c <;> simp [List.length_zip, hlen]

theorem colIdx_mapSet_ne {df : DF} {c c' : String} (f : List Cell → Cell)
    (h : c ≠ c') : (df.mapSet c f).colIdx c' = df.colIdx c' := by
  unfold DF.mapSet
  cases hidx : df.colIdx c with
  | some i => rfl
  | none => exact findIdxA_append_ne h

theorem colIdx_setVals_ne {df : DF} {c c' : String} (vals : List Cell)
    (h : c ≠ c') : (df.setVals c vals).colIdx c' = df.colIdx c' := by
  unfold DF.setVals
  cases hidx : df.colIdx c with
  | some i => rfl
  | none => exact findIdxA_append_ne h

theorem colPred_mapSet_self {df : DF} {c : String} {f : List Cell → Cell}
    {P : Cell → Prop} (hwf : df.WF) (hf : ∀ r ∈ df.rows, P (f r)) :
    colPred (df.mapSet c f) c P := by
  unfold DF.mapSet colPred
  cases hidx : df.colIdx c with
  | some i =>
      refine ⟨i, hidx, ?_⟩
      intro r hr
      simp only [List.mem_map] at hr
      obtain ⟨r0, hr0, rfl⟩ := hr
      rw [cellAt_set_self (by rw [hwf r0 hr0]; exact colIdx_lt hidx)]
      exact hf r0 hr0
  | none =>
      refine ⟨df.cols.length, findIdxA_append_self (findIdxA_eq_none.mp hidx), ?_⟩
      intro r hr
      simp only [List.mem_map] at hr
      obtain ⟨r0, hr0, rfl⟩ := hr
      rw [← hwf r0 hr0, cellAt_append_self]
      exact hf r0 hr0

theorem colPred_mapSet_ne {df : DF} {c c' : String} {f : List Cell → Cell}
    {P : Cell → Prop} (hwf : df.WF) (h : c ≠ c') (hp : colPred df c' P) :
    colPred (df.mapSet c f) c' P := by
  obtain ⟨j, hj, hP⟩ := hp
  refine ⟨j, by rw [colIdx_mapSet_ne f h]; exact hj, ?_⟩
  unfold DF.mapSet
  cases hidx : df.colIdx c with
  | some i =>
      intro r hr
      simp only [List.mem_map] at hr
      obtain ⟨r0, hr0, rfl⟩ := hr
      rw [cellAt_set_ne (colIdx_ne_of_name_ne h hidx hj)]
      exact hP r0 hr0
  | none =>
      intro r hr
      simp only [List.mem_map] at hr
      obtain ⟨r0, hr0, rfl⟩ := hr
      rw [cellAt_append_lt (by rw [hwf r0 hr0]; exact colIdx_lt hj)]
      exact hP r0 hr0

theorem colPred_setVals_self {df : DF} {c : String} {vals : List Cell}
    {P : Cell → Prop} (hwf : df.WF) (hv : ∀ v ∈ vals, P v) :
    colPred (df.setVals c vals) c P := by
  unfold DF.setVals colPred
  cases hidx : df.colIdx c with
  | some i =>
      refine ⟨i, hidx, ?_⟩
      intro r hr
      simp only [List.mem_map] at hr
      obtain ⟨p, hp, rfl⟩ := hr
      rw [cellAt_set_self (by rw [hwf p.1 (List.of_mem_zip hp).1]; exact colIdx_lt hidx)]
      exact hv p.2 (List.of_mem_zip hp).2
  | none =>
      refine ⟨df.cols.length, findIdxA_append_self (findIdxA_eq_none.mp hidx), ?_⟩
      intro r hr
      simp only [List.mem_map] at hr
      obtain ⟨p, hp, rfl⟩ := hr
      rw [← hwf p.1 (List.of_mem_zip hp).1, cellAt_append_self]
      exact hv p.2 (List.of_mem_zip hp).2

theorem colPred_setVals_ne {df : DF} {c c' : String} {vals : List Cell}
    {P : Cell → Prop} (hwf : df.WF) (h : c ≠ c') (hp : colPred df c' P) :
    colPred (df.setVals c vals) c' P := by
  obtain ⟨j, hj, hP⟩ := hp
  refine ⟨j, by rw [colIdx_setVals_ne vals h]; exact hj, ?_⟩
  unfold DF.setVals
  cases hidx : df.colIdx c with
  | some i =>
      intro r hr
      simp only [List.mem_map] at hr
      obtain ⟨p, hp', rfl⟩ := hr
      rw [cellAt_set_ne (colIdx_ne_of_name_ne h hidx hj)]
      exact hP p.1 (List.of_mem_zip hp').1
  | none =>
      intro r hr
      simp only [List.mem_map] at hr
      obtain ⟨p, hp', rfl⟩ := hr
      rw [cellAt_append_lt (by rw [hwf p.1 (List.of_mem_zip hp').1]; exact colIdx_lt hj)]
      exact hP p.1 (List.of_mem_zip hp').1

theorem colPred_mapSetFrom_exists (df : DF) (tgt src : String) (f : Cell → Cell) :
    ∃ g, df.mapSetFrom tgt src f = df.mapSet tgt g := by
  unfold DF.mapSetFrom
  cases df.colIdx src with
  | some i => exact ⟨_, rfl⟩
  | none => exact ⟨_, rfl⟩

theorem column_mapSet_ne {df : DF} {c c' : String} (f : List Cell → Cell)
    (hwf : df.WF) (h : c ≠ c') :
    (df.mapSet c f).column c' = df.column c' := by
  unfold DF.column
  rw [colIdx_mapSet_ne f h]
  cases hj : df.colIdx c' with
  | none => rfl
  | some j =>
      simp only [Option.map_some']
      congr 1
      unfold DF.mapSet
      cases hidx : df.colIdx c with
      | some i =>
          simp only [List.map_map]
          refine List.map_congr_left ?_
          intro r hr
          exact cellAt_set_ne (colIdx_ne_of_name_ne h hidx hj) _
      | none =>
          simp only [List.map_map]
          refine List.map_congr_left ?_
          intro r hr
          exact cellAt_append_lt (by rw [hwf r hr]; exact colIdx_lt hj)

theorem zip_map_cellAt {j : ℕ} :
    ∀ (rs : List (List Cell)) (vs : List Cell) (g : List Cell → Cell → List Cell),
      (∀ r ∈ rs, ∀ v, cellAt (g r v) j = cellAt r j) → vs.length = rs.length →
      ((rs.zip vs).map (fun p => g p.1 p.2)).map (fun r => cellAt r j) =
        rs.map (fun r => cellAt r j)
  | [], _, _, _, _ => by simp
  | r :: rt, [], g, hg, hlen => by simp at hlen
  | r :: rt, v :: vt, g, hg, hlen => by
      simp only [List.zip_cons_cons, List.map_cons]
      rw [hg r (List.mem_cons_self r rt) v]
      congr 1
      exact zip_map_cellAt rt vt g
        (fun r' hr' v' => hg r' (List.mem_cons_of_mem r hr') v')
        (by simpa using hlen)

theorem column_setVals_ne {df : DF} {c c' : String} {vals : List Cell}
    (hwf : df.WF) (hlen : vals.length = df.rows.length) (h : c ≠ c') :
    (df.setVals c vals).column c' = df.column c' := by
  unfold DF.column
  rw [colIdx_setVals_ne vals h]
  cases hj : df.colIdx c' with
  | none => rfl
  | some j =>
      simp only [Option.map_some']
      congr 1
      unfold DF.setVals
      cases hidx : df.colIdx c with
      | some i =>
          exact zip_map_cellAt df.rows vals (fun r v => r.set i v)
            (fun r _ v => cellAt_set_ne (colIdx_ne_of_name_ne h hidx hj) v) hlen
      | none =>
          exact zip_map_cellAt df.rows vals (fun r v => r ++ [v])
            (fun r hr v => cellAt_append_lt (by rw [hwf r hr]; exact colIdx_lt hj)) hlen

/-- A cell that is either missing or numeric. -/
def numOrNull (c : Cell) : Prop := c = .null ∨ ∃ q : ℚ, c = .num q

theorem toNumeric_numOrNull (c : Cell) : numOrNull (toNumeric c) := by
  cases c <;> simp [toNumeric, numOrNull]

theorem mapM_option_length {α β : Type} {f : α → Option β} :
    ∀ {l : List α} {out : List β}, l.mapM f = some out → out.length = l.length := by
  intro l
  induction l with
  | nil =>
      intro out h
      simp only [List.mapM_nil, Option.pure_def, Option.some.injEq] at h
      simp [← h]
  | cons a t ih =>
      intro out h
      simp only [List.mapM_cons, Option.pure_def, Option.bind_eq_bind,
        Option.bind_eq_some, Option.some.injEq] at h
      obtain ⟨b, hb, rest, hrest, rfl⟩ := h
      simp [ih hrest]

theorem mapM_option_mem {α β : Type} {f : α → Option β} :
    ∀ {l : List α} {out : List β}, l.mapM f = some out →
      ∀ y ∈ out, ∃ x ∈ l, f x = some y := by
  intro l
  induction l with
  | nil =>
      intro out h
      simp only [List.mapM_nil, Option.pure_def, Option.some.injEq] at h
      simp [← h]
  | cons a t ih =>
      intro out h
      simp only [List.mapM_cons, Option.pure_def, Option.bind_eq_bind,
        Option.bind_eq_some, Option.some.injEq] at h
      obtain ⟨b, hb, rest, hrest, rfl⟩ := h
      intro y hy
      rcases List.mem_cons.mp hy with hyb | hyr
      · exact ⟨a, List.mem_cons_self a t, hyb ▸ hb⟩
      · obtain ⟨x, hx, hfx⟩ := ih hrest y hyr
        exact ⟨x, List.mem_cons_of_mem a hx, hfx⟩

theorem fallbackAmounts_length {df : DF} {vals : List Cell}
    (h : fallbackAmounts df = some vals) : vals.length = df.rows.length := by
  unfold fallbackAmounts at h
  cases hci : df.colIdx "Credit" <;> rw [hci] at h
  · simp at h
  · cases hdi : df.colIdx "Debit" <;> rw [hdi] at h
    · simp at h
    · exact mapM_option_length h

theorem fallbackAmounts_num {df : DF} {vals : List Cell}
    (h : fallbackAmounts df = some vals) : ∀ v ∈ vals, ∃ q : ℚ, v = .num q := by
  unfold fallbackAmounts at h
  cases hci : df.colIdx "Credit" <;> rw [hci] at h
  · simp at h
  · cases hdi : df.colIdx "Debit" <;> rw [hdi] at h
    · simp at h
    · intro v hv
      obtain ⟨r, _, hf⟩ := mapM_option_mem h v hv
      simp only [Option.pure_def, Option.bind_eq_bind, Option.bind_eq_some,
        Option.some.injEq] at hf
      obtain ⟨c, _, d, _, rfl⟩ := hf
      exact ⟨c - d, rfl⟩

theorem colPred_mapSetFrom_ne {df : DF} {c' : String} {P : Cell → Prop}
    (tgt src : String) (f : Cell → Cell) (hwf : df.WF) (h : tgt ≠ c')
    (hp : colPred df c' P) : colPred (df.mapSetFrom tgt src f) c' P := by
  obtain ⟨g, hg⟩ := colPred_mapSetFrom_exists df tgt src f
  rw [hg]
  exact colPred_mapSet_ne hwf h hp

theorem WF_mapSetFrom {df : DF} (hwf : df.WF) (tgt src : String) (f : Cell → Cell) :
    (df.mapSetFrom tgt src f).WF := by
  obtain ⟨g, hg⟩ := colPred_mapSetFrom_exists df tgt src f
  rw [hg]
  exact WF_mapSet hwf tgt g

theorem rows_length_mapSetFrom (df : DF) (tgt src : String) (f : Cell → Cell) :
    (df.mapSetFrom tgt src f).rows.length = df.rows.length := by
  obtain ⟨g, hg⟩ := colPred_mapSetFrom_exists df tgt src f
  rw [hg]
  exact rows_length_mapSet df tgt g

theorem column_mapSetFrom_ne {df : DF} {c' : String} (tgt src : String)
    (f : Cell → Cell) (hwf : df.WF) (h : tgt ≠ c') :
    (df.mapSetFrom tgt src f).column c' = df.column c' := by
  obtain ⟨g, hg⟩ := colPred_mapSetFrom_exists df tgt src f
  rw [hg]
  exact column_mapSet_ne g hwf h

theorem WF_setCat {d : DF} (hwf : d.WF) (cc? : Option String) : (setCat d cc?).WF := by
  cases cc? with
  | some cc => exact WF_mapSetFrom hwf _ _ _
  | none => exact WF_mapSet hwf _ _

theorem WF_setDesc {d : DF} (hwf : d.WF) (xc? : Option String) : (setDesc d xc?).WF := by
  cases xc? with
  | some xc => exact WF_mapSetFrom hwf _ _ _
  | none => exact WF_mapSet hwf _ _

theorem WF_setTypeIfAbsent {d : DF} (hwf : d.WF) : (setTypeIfAbsent d).WF := by
  unfold setTypeIfAbsent
  split
  · exact hwf
  · exact WF_mapSetFrom hwf _ _ _

theorem WF_assignTail {d2 : DF} (hwf : d2.WF) (cc? xc? : Option String) :
    (assignTail d2 cc? xc?).WF :=
  WF_setTypeIfAbsent (WF_setDesc (WF_setCat hwf cc?) xc?)

theorem colPred_setCat_ne {d : DF} {c' : String} {P : Cell → Prop}
    (hwf : d.WF) (cc? : Option String) (h : c' ≠ "Category")
    (hp : colPred d c' P) : colPred (setCat d cc?) c' P := by
  cases cc? with
  | some cc => exact colPred_mapSetFrom_ne _ _ _ hwf (Ne.symm h) hp
  | none => exact colPred_mapSet_ne hwf (Ne.symm h) hp

theorem colPred_setDesc_ne {d : DF} {c' : String} {P : Cell → Prop}
    (hwf : d.WF) (xc? : Option String) (h : c' ≠ "Description")
    (hp : colPred d c' P) : colPred (setDesc d xc?) c' P := by
  cases xc? with
  | some xc => exact colPred_mapSetFrom_ne _ _ _ hwf (Ne.symm h) hp
  | none => exact colPred_mapSet_ne hwf (Ne.symm h) hp

theorem colPred_setTypeIfAbsent_ne {d : DF} {c' : String} {P : Cell → Prop}
    (hwf : d.WF) (h : c' ≠ "Type") (hp : colPred d c' P) :
    colPred (setTypeIfAbsent d) c' P := by
  unfold setTypeIfAbsent
  split
  · exact hp
  · exact colPred_mapSetFrom_ne _ _ _ hwf (Ne.symm h) hp

theorem colPred_assignTail {d2 : DF} {c' : String} {P : Cell → Prop}
    (hwf : d2.WF) (cc? xc? : Option String)
    (hc : c' ≠ "Category" ∧ c' ≠ "Description" ∧ c' ≠ "Type")
    (hp : colPred d2 c' P) : colPred (assignTail d2 cc? xc?) c' P :=
  colPred_setTypeIfAbsent_ne (WF_setDesc (WF_setCat hwf cc?) xc?) hc.2.2
    (colPred_setDesc_ne (WF_setCat hwf cc?) xc? hc.2.1
      (colPred_setCat_ne hwf cc? hc.1 hp))

theorem colPred_mapSetFrom_self {df : DF} {P : Cell → Prop}
    (tgt src : String) {f : Cell → Cell} (hwf : df.WF) (hf : ∀ c, P (f c)) :
    colPred (df.mapSetFrom tgt src f) tgt P := by
  unfold DF.mapSetFrom
  cases df.colIdx src with
  | some i => exact colPred_mapSet_self hwf (fun r _ => hf _)
  | none => exact colPred_mapSet_self hwf (fun r _ => hf _)

theorem isNull_iff {c : Cell} : c.isNull = true ↔ c = .null := by
  cases c <;> simp [Cell.isNull]

/-- Every frame produced by a successful run of the assignment phase of
`validate_dataset` is well-formed, carries a `Date` column, and its `Amount`
column holds only numbers and nulls. -/
theorem validateAssign_ok {df d : DF} (hwf : df.WF)
    (h : validateAssign df = (d, none)) :
    d.WF ∧ colPred d "Date" (fun _ => True) ∧ colPred d "Amount" numOrNull := by
  unfold validateAssign at h
  cases hdc : detectColumn df dateKeys <;> rw [hdc] at h
  · simp at h
  case some dc =>
    have hwf1 : (df.mapSetFrom "Date" dc toDatetime).WF := WF_mapSetFrom hwf _ _ _
    have hdate1 : colPred (df.mapSetFrom "Date" dc toDatetime) "Date" (fun _ => True) :=
      colPred_mapSetFrom_self _ _ hwf (fun _ => trivial)
    cases hac : detectColumn df amountKeys <;> rw [hac] at h
    case some ac =>
      simp only [Prod.mk.injEq] at h
      obtain ⟨rfl, -⟩ := h
      have hwf2 : ((df.mapSetFrom "Date" dc toDatetime).mapSetFrom
          "Amount" ac toNumeric).WF := WF_mapSetFrom hwf1 _ _ _
      have hamt2 : colPred ((df.mapSetFrom "Date" dc toDatetime).mapSetFrom
          "Amount" ac toNumeric) "Amount" numOrNull :=
        colPred_mapSetFrom_self _ _ hwf1 toNumeric_numOrNull
      have hdate2 : colPred ((df.mapSetFrom "Date" dc toDatetime).mapSetFrom
          "Amount" ac toNumeric) "Date" (fun _ => True) :=
        colPred_mapSetFrom_ne _ _ _ hwf1 (by decide) hdate1
      exact ⟨WF_assignTail hwf2 _ _,
        colPred_assignTail hwf2 _ _ (by decide) hdate2,
        colPred_assignTail hwf2 _ _ (by decide) hamt2⟩
    case none =>
      dsimp only at h
      split at h
      · exact absurd h (by simp)
      rename_i d2 heq
      simp only [Prod.mk.injEq] at h
      obtain ⟨rfl, -⟩ := h
      split at heq
      · split at heq
        case _ vals hfb =>
          simp only [Prod.mk.injEq] at heq
          obtain ⟨rfl, -⟩ := heq
          have hwf2 : ((df.mapSetFrom "Date" dc toDatetime).setVals "Amount" vals).WF :=
            WF_setVals hwf1 _
          have hamt2 : colPred ((df.mapSetFrom "Date" dc toDatetime).setVals
              "Amount" vals) "Amount" numOrNull :=
            colPred_setVals_self hwf1
              (fun v hv => Or.inr (fallbackAmounts_num hfb v hv))
          have hdate2 : colPred ((df.mapSetFrom "Date" dc toDatetime).setVals
              "Amount" vals) "Date" (fun _ => True) :=
            colPred_setVals_ne hwf1 (by decide) hdate1
          exact ⟨WF_assignTail hwf2 _ _,
            colPred_assignTail hwf2 _ _ (by decide) hdate2,
            colPred_assignTail hwf2 _ _ (by decide) hamt2⟩
        case _ hfb => simp at heq
      · simp at heq

/-- On a frame whose `Amount` column is numeric-or-null, the
dropna-and-clip step leaves no null `Date`, no null `Amount`, and every
amount inside `[-1e6, 1e6]`. -/
theorem dropClip_spec {d : DF} {i j : ℕ}
    (hi : d.colIdx "Date" = some i) (hj : d.colIdx "Amount" = some j)
    (hnum : ∀ r ∈ d.rows, numOrNull (cellAt r j)) :
    (dropClip d).colIdx "Date" = some i ∧
    (dropClip d).colIdx "Amount" = some j ∧
    ∀ r ∈ (dropClip d).rows, cellAt r i ≠ Cell.null ∧
      ∃ q : ℚ, cellAt r j = Cell.num q ∧ -1000000 ≤ q ∧ q ≤ 1000000 := by
  have hij : i ≠ j := colIdx_ne_of_name_ne (by decide) hi hj
  unfold dropClip
  rw [hi, hj]
  refine ⟨hi, hj, ?_⟩
  intro r' hr'
  simp only [List.mem_map] at hr'
  obtain ⟨r, hrkept, rfl⟩ := hr'
  have hmem := List.mem_filter.mp hrkept
  obtain ⟨hrd, hpred⟩ := hmem
  simp only [Bool.and_eq_true, Bool.not_eq_true'] at hpred
  have hdnn : cellAt r i ≠ Cell.null := fun hc => by
    rw [hc] at hpred
    simp [Cell.isNull] at hpred
  have hann : cellAt r j ≠ Cell.null := fun hc => by
    rw [hc] at hpred
    simp [Cell.isNull] at hpred
  have hjlt : j < r.length := lt_of_cellAt_ne_null hann
  constructor
  · rw [cellAt_set_ne (Ne.symm hij)]
    exact hdnn
  · rw [cellAt_set_self hjlt]
    rcases hnum r hrd with hc | ⟨q, hq⟩
    · exact absurd hc hann
    · refine ⟨max (-1000000) (min q 1000000), by rw [hq]; rfl, le_max_left _ _, ?_⟩
      exact max_le (by norm_num) (min_le_right _ _)

/-- C1: For every input table accepted by the normalizer (`validate_dataset`
succeeds), the returned canonical table has no null `Date` value, no null
`Amount` value, and every amount lies in the interval `[-1e6, 1e6]`. -/
theorem validate_dataset_output_no_null_clipped (df out : DF) (hwf : df.WF)
    (h : validateDataset df = .ok out) :
    ∃ i j, out.colIdx "Date" = some i ∧ out.colIdx "Amount" = some j ∧
      ∀ r ∈ out.rows, cellAt r i ≠ Cell.null ∧
        ∃ q : ℚ, cellAt r j = Cell.num q ∧ -1000000 ≤ q ∧ q ≤ 1000000 := by
  unfold validateDataset at h
  rcases hva : validateAssign df with ⟨dd, e?⟩
  rw [hva] at h
  cases e? with
  | some e => simp at h
  | none =>
    simp only [Except.ok.injEq] at h
    subst h
    obtain ⟨-, ⟨i, hi, -⟩, ⟨j, hj, hnum⟩⟩ := validateAssign_ok hwf hva
    obtain ⟨hi', hj', hrows⟩ := dropClip_spec hi hj hnum
    exact ⟨i, j, hi', hj', hrows⟩

/-- A raw upload with a parse-failing date, a missing amount, and an amount
beyond the clip bound. -/
def dfRaw1 : DF := ⟨["date", "amount"],
  [[.date 3, .num 7], [.str "bad", .num 20], [.date 4, .null], [.date 5, .num 2000000]]⟩

/-- The canonical table `validate_dataset` produces for `dfRaw1`. -/
def dfRaw1Out : DF := ⟨["date", "amount", "Date", "Amount", "Category", "Description", "Type"],
  [[.date 3, .num 7, .date 3, .num 7, .str "Uncategorized", .str "Unknown", .str "Income"],
   [.date 5, .num 2000000, .date 5, .num 1000000, .str "Uncategorized", .str "Unknown",
    .str "Income"]]⟩

/-- Witness for C1 at a concrete upload: the hypotheses hold and the
normalized table satisfies the guarantee. -/
theorem validate_dataset_output_no_null_clipped_witness :
    (dfRaw1.WF ∧ validateDataset dfRaw1 = .ok dfRaw1Out) ∧
    (∃ i j, dfRaw1Out.colIdx "Date" = some i ∧ dfRaw1Out.colIdx "Amount" = some j ∧
      ∀ r ∈ dfRaw1Out.rows, cellAt r i ≠ Cell.null ∧
        ∃ q : ℚ, cellAt r j = Cell.num q ∧ -1000000 ≤ q ∧ q ≤ 1000000) :=
  ⟨⟨by decide, by decide⟩,
    validate_dataset_output_no_null_clipped dfRaw1 dfRaw1Out (by decide) (by decide)⟩

/-- The spec's debit/credit scenario: columns `TxnDate`, `Debit`, `Credit`,
one row with debit 5 and credit 20. -/
def dfDebitCredit : DF := ⟨["TxnDate", "Debit", "Credit"], [[.date 648, .num 5, .num 20]]⟩

/-- What `validate_dataset` actually produces for `dfDebitCredit`. -/
def dfDebitCreditOut : DF :=
  ⟨["TxnDate", "Debit", "Credit", "Date", "Amount", "Category", "Description", "Type"],
   [[.date 648, .num 5, .num 20, .date 648, .num 5, .str "Uncategorized", .str "Unknown",
     .str "Income"]]⟩

/-- C2: On a table with `Debit` and `Credit` columns and no `Amount` column,
`detect_column` claims the `Debit` column as the amount column (the substring
"debit" is in the amount keyword list), so the `credit − debit` fallback of
dashboard_old.py:105-106 is unreachable: normalization succeeds but sets
`Amount = 5` (the debit value, labelled `Income`) instead of
`credit − debit = 15`. -/
theorem debit_credit_fallback_unreachable :
    detectColumn dfDebitCredit amountKeys = some "Debit" ∧
    validateDataset dfDebitCredit = .ok dfDebitCreditOut ∧
    dfDebitCreditOut.column "Amount" = some [Cell.num 5] ∧
    (5 : ℚ) ≠ 20 - 5 :=
  ⟨by decide, by decide, by decide, by norm_num⟩

/-- How membership in the lowered column-name set changes under a column
assignment: only the (lowered) target name can be added. -/
theorem mem_lowerCols_mapSet {df : DF} {c : String} {f : List Cell → Cell}
    {x : List Char} (h : x ∈ lowerCols (df.mapSet c f)) :
    x ∈ lowerCols df ∨ x = lowerList c := by
  unfold DF.mapSet at h
  cases hidx : df.colIdx c <;> rw [hidx] at h <;> unfold lowerCols at h ⊢
  · rw [List.map_append] at h
    rcases List.mem_append.mp h with h | h
    · exact Or.inl h
    · simp only [List.map_cons, List.map_nil, List.mem_singleton] at h
      exact Or.inr h
  · exact Or.inl h

/-- C6: If no column name contains a date keyword, or no column name
contains an amount keyword and the debit/credit fallback does not apply,
`validate_dataset` fails hard (`st.error` + `st.stop`): no table of any kind
is returned. -/
theorem validate_dataset_schema_hard_failure (df : DF)
    (hcase : detectColumn df dateKeys = none ∨
      (detectColumn df amountKeys = none ∧
        ¬("debit".toList ∈ lowerCols df ∧ "credit".toList ∈ lowerCols df))) :
    ∃ e, validateDataset df = .error e := by
  unfold validateDataset validateAssign
  cases hdc : detectColumn df dateKeys
  · exact ⟨.noDateColumn, rfl⟩
  case some dc =>
    rcases hcase with hdate | ⟨hac, hguard⟩
    · rw [hdate] at hdc; cases hdc
    · rw [hac]
      dsimp only
      have hg1 : ¬("debit".toList ∈ lowerCols (df.mapSetFrom "Date" dc toDatetime) ∧
          "credit".toList ∈ lowerCols (df.mapSetFrom "Date" dc toDatetime)) := by
        rintro ⟨hd, hc⟩
        obtain ⟨g, hg⟩ := colPred_mapSetFrom_exists df "Date" dc toDatetime
        rw [hg] at hd hc
        rcases mem_lowerCols_mapSet hd with hd' | hd'
        · rcases mem_lowerCols_mapSet hc with hc' | hc'
          · exact hguard ⟨hd', hc'⟩
          · exact absurd hc' (by decide)
        · exact absurd hd' (by decide)
      rw [if_neg hg1]
      exact ⟨.noAmountColumn, rfl⟩

/-- A table with an amount column but no date-like column. -/
def dfNoDate : DF := ⟨["amount"], [[.num 1]]⟩

/-- A table with a date column but no amount-like column and no
debit/credit pair. -/
def dfNoAmount : DF := ⟨["date", "notes"], [[.date 1, .str "x"]]⟩

/-- Witness for C6 on both failure shapes. -/
theorem validate_dataset_schema_hard_failure_witness :
    (detectColumn dfNoDate dateKeys = none ∧
      (∃ e, validateDataset dfNoDate = .error e)) ∧
    (detectColumn dfNoAmount amountKeys = none ∧
      (∃ e, validateDataset dfNoAmount = .error e)) :=
  ⟨⟨by decide, validate_dataset_schema_hard_failure dfNoDate (Or.inl (by decide))⟩,
   ⟨by decide, validate_dataset_schema_hard_failure dfNoAmount
      (Or.inr ⟨by decide, by decide⟩)⟩⟩

/-- C7: `predict_category` raises the model-not-trained error exactly when
no trained artifact exists; with an artifact present it returns the
artifact's predicted label and no error. -/
theorem predict_category_requires_artifact (artifact : Option Categorizer)
    (description : String) :
    (predictCategory artifact description = .error .modelNotTrained ↔ artifact = none) ∧
    (∀ m, artifact = some m →
      predictCategory artifact description = .ok (m.predictFn description)) := by
  cases artifact with
  | none => exact ⟨by simp [predictCategory], by simp⟩
  | some m => exact ⟨by simp [predictCategory], by simp [predictCategory]⟩

/-- Witness for C7: no artifact errors, a concrete artifact predicts. -/
theorem predict_category_requires_artifact_witness :
    predictCategory none "Uber ride" = .error .modelNotTrained ∧
    predictCategory (some ⟨fun _ => "Transport"⟩) "Uber ride" = .ok "Transport" :=
  ⟨(predict_category_requires_artifact none "Uber ride").1.mpr rfl,
   (predict_category_requires_artifact (some ⟨fun _ => "Transport"⟩) "Uber ride").2
     ⟨fun _ => "Transport"⟩ rfl⟩

theorem sum_filter_pos_nonneg (l : List ℚ) :
    0 ≤ (l.filter (fun q => decide (0 < q))).sum := by
  induction l with
  | nil => simp
  | cons a t ih =>
      simp only [List.filter_cons]
      split
      · rename_i h
        simp only [List.sum_cons]
        exact add_nonneg (le_of_lt (of_decide_eq_true h)) ih
      · exact ih

theorem sum_filter_neg_nonpos (l : List ℚ) :
    (l.filter (fun q => decide (q < 0))).sum ≤ 0 := by
  induction l with
  | nil => simp
  | cons a t ih =>
      simp only [List.filter_cons]
      split
      · rename_i h
        simp only [List.sum_cons]
        exact add_nonpos (le_of_lt (of_decide_eq_true h)) ih
      · exact ih

/-- The spec's end-to-end example: amounts −50, 1000, −60. -/
def exampleKpi : DF := ⟨["Amount"], [[.num (-50)], [.num 1000], [.num (-60)]]⟩

/-- C8: the KPI block: income is the sum of positive amounts; the two
dashboards' expense formulas (`sum * -1` and `abs(sum)`) agree; the savings
rate is `savings/income × 100` whenever income is nonzero and 0 when income
is 0 (the code's `income > 0` guard is equivalent because income is a sum of
positive amounts); on the three-row example the KPIs are income 1000,
expenses 110, savings 890, rate 89%. -/
theorem kpi_block_consistent :
    (∀ df : DF, totalExpensesNew df = totalExpensesOld df) ∧
    (∀ df : DF, savingsRate df =
      if totalIncome df ≠ 0 then netSavings df / totalIncome df * 100 else 0) ∧
    (totalIncome exampleKpi = 1000 ∧ totalExpensesOld exampleKpi = 110 ∧
      netSavings exampleKpi = 890 ∧ savingsRate exampleKpi = 89) := by
  refine ⟨fun df => ?_, fun df => ?_, ?_⟩
  · unfold totalExpensesNew totalExpensesOld
    rw [abs_of_nonpos (sum_filter_neg_nonpos _)]
    ring
  · unfold savingsRate
    have hnonneg : 0 ≤ totalIncome df := sum_filter_pos_nonneg (amountsOf df)
    rcases lt_or_eq_of_le hnonneg with hpos | hzero
    · rw [if_pos hpos, if_pos (ne_of_gt hpos)]
    · rw [if_neg (by rw [← hzero]; exact lt_irrefl 0),
        if_neg (by rw [← hzero]; simp)]
  · have h2 : (amountsOf exampleKpi).filter (fun q => decide (0 < q)) = [1000] := by decide
    have h3 : (amountsOf exampleKpi).filter (fun q => decide (q < 0)) = [-50, -60] := by decide
    have hI : totalIncome exampleKpi = 1000 := by
      unfold totalIncome; rw [h2]; simp
    have hE : totalExpensesOld exampleKpi = 110 := by
      unfold totalExpensesOld; rw [h3]; norm_num
    have hN : netSavings exampleKpi = 890 := by
      unfold netSavings; rw [hI, hE]; norm_num
    refine ⟨hI, hE, hN, ?_⟩
    unfold savingsRate
    rw [hI, hN, if_pos (by norm_num)]
    norm_num

/-! ## Forecaster claims -/

theorem insertSorted_length (x : ℤ) (l : List ℤ) :
    (insertSorted x l).length = l.length + 1 := by
  induction l with
  | nil => rfl
  | cons y t ih =>
      unfold insertSorted
      split
      · simp
      · simp [ih]

theorem sortZ_length (l : List ℤ) : (sortZ l).length = l.length := by
  induction l with
  | nil => rfl
  | cons x t ih => simp [sortZ, insertSorted_length, ih]

theorem monthlyOf_length (ps : List (ℤ × ℚ)) :
    (monthlyOf ps).length = (dedupZ (ps.map Prod.fst)).length := by
  simp [monthlyOf, sortZ_length]

/-- C3: the forecaster's gate conditions (models.py:125-140): with `Date` and
`Amount` columns present, no surviving expense row means `NoExpenseData`;
expense rows spanning fewer than 3 distinct calendar months mean
`InsufficientHistory`; with 3 or more distinct months no insufficiency error
is raised and the call succeeds (the count of distinct months equals the
length of the monthly series). -/
theorem forecast_expenses_history_gate (df : DF) (h : ℕ) (w : ℚ)
    (ps : List (ℤ × ℚ)) (hps : expensePairs df = some ps) :
    (monthlyOf ps).length = (dedupZ (ps.map Prod.fst)).length ∧
    (ps = [] → forecastExpenses df h w = .error .noExpenseData) ∧
    (ps ≠ [] → (monthlyOf ps).length < 3 →
      forecastExpenses df h w = .error .insufficientHistory) ∧
    (3 ≤ (monthlyOf ps).length → ∃ pts, forecastExpenses df h w = .ok pts) := by
  refine ⟨monthlyOf_length ps, ?_, ?_, ?_⟩
  · intro hempty
    unfold forecastExpenses
    rw [hps]
    dsimp only
    rw [if_pos hempty]
  · intro hne hlt
    unfold forecastExpenses
    rw [hps]
    dsimp only
    rw [if_neg hne, if_pos hlt]
  · intro hge
    have hne : ps ≠ [] := by
      intro hempty
      rw [hempty] at hge
      simp [monthlyOf, dedupZ, sortZ] at hge
    unfold forecastExpenses
    rw [hps]
    dsimp only
    rw [if_neg hne, if_neg (not_lt.mpr hge)]
    exact ⟨_, rfl⟩

/-- A frame with one income row and no expense rows. -/
def dfFc0 : DF := ⟨["Date", "Amount"], [[.date 0, .num 5]]⟩

/-- A frame whose expense rows span exactly two months. -/
def dfFc2 : DF := ⟨["Date", "Amount"], [[.date 0, .num (-1)], [.date 1, .num (-1)]]⟩

/-- A frame whose expense rows span exactly three months. -/
def dfFc3 : DF :=
  ⟨["Date", "Amount"], [[.date 0, .num (-2)], [.date 1, .num (-2)], [.date 2, .num (-2)]]⟩

/-- Witness for C3 on all three boundary shapes. -/
theorem forecast_expenses_history_gate_witness :
    (expensePairs dfFc0 = some [] ∧
      forecastExpenses dfFc0 3 1 = .error .noExpenseData) ∧
    (expensePairs dfFc2 = some [(0, -1), (1, -1)] ∧
      (monthlyOf [((0 : ℤ), (-1 : ℚ)), (1, -1)]).length < 3 ∧
      forecastExpenses dfFc2 3 1 = .error .insufficientHistory) ∧
    (∃ pts, forecastExpenses dfFc3 3 1 = .ok pts) :=
  ⟨⟨by decide, (forecast_expenses_history_gate dfFc0 3 1 [] (by decide)).2.1 rfl⟩,
   ⟨by decide, by decide,
    (forecast_expenses_history_gate dfFc2 3 1 [(0, -1), (1, -1)] (by decide)).2.2.1
      (by decide) (by decide)⟩,
   (forecast_expenses_history_gate dfFc3 3 1 [(0, -2), (1, -2), (2, -2)] (by decide)).2.2.2
     (by decide)⟩

/-- Forecast row at position `i` (`default` when out of range). -/
def fpAt (l : List FPoint) (i : ℕ) : FPoint := (l.get? i).getD default

theorem tailPeriods_append {a b : List FPoint} {h : ℕ} (hb : b.length = h) :
    tailPeriods (a ++ b) h = b := by
  unfold tailPeriods
  rw [List.length_append, hb, Nat.add_sub_cancel]
  exact List.drop_left a b

theorem fpAt_range_map {h i : ℕ} (f : ℕ → FPoint) (hi : i < h) :
    fpAt ((List.range h).map f) i = f i := by
  unfold fpAt
  rw [List.get?_eq_getElem?, List.getElem?_map, List.getElem?_range hi]
  rfl

theorem mem_insertSorted {x y : ℤ} :
    ∀ {l : List ℤ}, y ∈ insertSorted x l ↔ y = x ∨ y ∈ l := by
  intro l
  induction l with
  | nil => simp [insertSorted]
  | cons a t ih =>
      unfold insertSorted
      split
      · simp [List.mem_cons]
      · simp only [List.mem_cons, ih]
        tauto

theorem mem_sortZ {x : ℤ} : ∀ {l : List ℤ}, x ∈ sortZ l ↔ x ∈ l := by
  intro l
  induction l with
  | nil => simp [sortZ]
  | cons a t ih => simp [sortZ, mem_insertSorted, ih]

theorem mem_dedupZ {x : ℤ} : ∀ {l : List ℤ}, x ∈ dedupZ l ↔ x ∈ l := by
  intro l
  induction l with
  | nil => simp [dedupZ]
  | cons a t ih =>
      unfold dedupZ
      split
      · rename_i ha
        simp only [List.mem_cons, ih]
        constructor
        · exact Or.inr
        · rintro (rfl | hx)
          · exact ha
          · exact hx
      · simp [List.mem_cons, ih]

theorem sorted_insertSorted {x : ℤ} :
    ∀ {l : List ℤ}, l.Pairwise (· ≤ ·) → (insertSorted x l).Pairwise (· ≤ ·) := by
  intro l
  induction l with
  | nil => intro; simp [insertSorted]
  | cons a t ih =>
      intro hs
      unfold insertSorted
      split
      · rename_i hxa
        refine List.Pairwise.cons ?_ hs
        intro z hz
        rcases List.mem_cons.mp hz with rfl | hz'
        · exact hxa
        · exact le_trans hxa (List.rel_of_pairwise_cons hs hz')
      · rename_i hxa
        push_neg at hxa
        refine List.Pairwise.cons ?_ (ih (List.Pairwise.of_cons hs))
        intro z hz
        rcases mem_insertSorted.mp hz with rfl | hz'
        · exact le_of_lt hxa
        · exact List.rel_of_pairwise_cons hs hz'

theorem sorted_sortZ : ∀ (l : List ℤ), (sortZ l).Pairwise (· ≤ ·)
  | [] => List.Pairwise.nil
  | _ :: t => sorted_insertSorted (sorted_sortZ t)

theorem sorted_le_getLast :
    ∀ {l : List ℤ} {z : ℤ}, l.Pairwise (· ≤ ·) → l.getLast? = some z →
      ∀ x ∈ l, x ≤ z := by
  intro l
  induction l with
  | nil => simp
  | cons a t ih =>
      intro z hs hz x hx
      cases t with
      | nil =>
          simp only [List.getLast?_singleton, Option.some.injEq] at hz
          simp only [List.mem_singleton] at hx
          rw [hx, hz]
      | cons b u =>
          rw [List.getLast?_cons_cons] at hz
          rcases List.mem_cons.mp hx with rfl | hx'
          · have hzmem : z ∈ b :: u := by
              have := List.getLast?_eq_getLast (b :: u) (by simp)
              rw [this] at hz
              exact (Option.some.inj hz) ▸ List.getLast_mem (by simp)
            exact List.rel_of_pairwise_cons hs hzmem
          · exact ih (List.Pairwise.of_cons hs) hz x hx'

theorem getLast?_map_fp {f : ℤ → ℤ × ℚ} :
    ∀ (l : List ℤ), (l.map f).getLast? = (l.getLast?).map f := by
  intro l
  induction l with
  | nil => rfl
  | cons a t ih =>
      cases t with
      | nil => rfl
      | cons b u =>
          simp only [List.map_cons, List.getLast?_cons_cons] at ih ⊢
          exact ih

/-- Every expense month is at most the last month of the monthly series:
`lastMonth (monthlyOf ps)` really is the last observed historical month. -/
theorem le_lastMonth_of_mem {ps : List (ℤ × ℚ)} {p : ℤ × ℚ} (hp : p ∈ ps)
    (hne : monthlyOf ps ≠ []) : p.1 ≤ lastMonth (monthlyOf ps) := by
  have hmem : p.1 ∈ sortZ (dedupZ (ps.map Prod.fst)) :=
    mem_sortZ.mpr (mem_dedupZ.mpr (List.mem_map_of_mem Prod.fst hp))
  have hne' : sortZ (dedupZ (ps.map Prod.fst)) ≠ [] := by
    intro hempty
    exact hne (by unfold monthlyOf; rw [hempty]; rfl)
  cases hz : (sortZ (dedupZ (ps.map Prod.fst))).getLast? with
  | none =>
      rw [List.getLast?_eq_none_iff] at hz
      exact absurd hz hne'
  | some z =>
      have hle : p.1 ≤ z := sorted_le_getLast (sorted_sortZ _) hz p.1 hmem
      have : lastMonth (monthlyOf ps) = z := by
        unfold lastMonth monthlyOf
        rw [getLast?_map_fp, hz]
        rfl
      rw [this]
      exact hle

theorem prophetEstimate_bounds {ms : List (ℤ × ℚ)} {w : ℚ} (hw : 0 < w) (m : ℤ) :
    (prophetEstimate ms w m).lo ≤ (prophetEstimate ms w m).yhat ∧
    (prophetEstimate ms w m).yhat ≤ (prophetEstimate ms w m).hi := by
  have hs : 0 ≤ w * ((ms.map (fun p => |p.2|)).sum) := by
    refine mul_nonneg (le_of_lt hw) (List.sum_nonneg ?_)
    intro x hx
    simp only [List.mem_map] at hx
    obtain ⟨p, -, rfl⟩ := hx
    exact abs_nonneg _
  unfold prophetEstimate
  constructor <;> dsimp only <;> linarith

/-- C4: with at least 3 months of expense history, `forecast_expenses`
succeeds for every horizon `h ≥ 1` and interval width `w > 0`, and its
returned tail has exactly `h` rows, with months strictly increasing and
contiguous starting the month right after the last observed historical
month, and `yhat_lower ≤ yhat ≤ yhat_upper` on every row. -/
theorem forecast_expenses_tail_shape (df : DF) (h : ℕ) (w : ℚ)
    (ps : List (ℤ × ℚ)) (hps : expensePairs df = some ps) (hh : 1 ≤ h)
    (hw : 0 < w) (hlen : 3 ≤ (monthlyOf ps).length) :
    ∃ pts, forecastExpenses df h w = .ok pts ∧
      pts.length = h ∧
      (∀ i, i + 1 < h → (fpAt pts (i + 1)).ds = (fpAt pts i).ds + 1) ∧
      (fpAt pts 0).ds = lastMonth (monthlyOf ps) + 1 ∧
      (∀ p ∈ ps, p.1 ≤ lastMonth (monthlyOf ps)) ∧
      (∀ p ∈ pts, p.lo ≤ p.yhat ∧ p.yhat ≤ p.hi) := by
  have hne : ps ≠ [] := by
    intro hempty
    rw [hempty] at hlen
    simp [monthlyOf, dedupZ, sortZ] at hlen
  have hmne : monthlyOf ps ≠ [] := by
    intro hempty
    rw [hempty] at hlen
    simp at hlen
  unfold forecastExpenses
  rw [hps]
  dsimp only
  rw [if_neg hne, if_neg (not_lt.mpr hlen)]
  refine ⟨_, rfl, ?_⟩
  unfold prophetFull
  rw [tailPeriods_append (by simp)]
  refine ⟨by simp, ?_, ?_, fun p hp => le_lastMonth_of_mem hp hmne, ?_⟩
  · intro i hi
    rw [fpAt_range_map _ hi, fpAt_range_map _ (Nat.lt_of_succ_lt hi)]
    unfold prophetEstimate
    dsimp only
    push_cast
    ring
  · rw [fpAt_range_map _ (Nat.lt_of_lt_of_le Nat.zero_lt_one hh)]
    unfold prophetEstimate
    dsimp only
    norm_num
  · intro p hp
    simp only [List.mem_map, List.mem_range] at hp
    obtain ⟨i, -, rfl⟩ := hp
    exact prophetEstimate_bounds hw _

/-- Witness for C4 at the three-month frame, horizon 2. -/
theorem forecast_expenses_tail_shape_witness :
    (expensePairs dfFc3 = some [(0, -2), (1, -2), (2, -2)] ∧ (1 : ℕ) ≤ 2 ∧
      (0 : ℚ) < 1 ∧ 3 ≤ (monthlyOf [((0 : ℤ), (-2 : ℚ)), (1, -2), (2, -2)]).length) ∧
    (∃ pts, forecastExpenses dfFc3 2 1 = .ok pts ∧
      pts.length = 2 ∧
      (∀ i, i + 1 < 2 → (fpAt pts (i + 1)).ds = (fpAt pts i).ds + 1) ∧
      (fpAt pts 0).ds = lastMonth (monthlyOf [((0 : ℤ), (-2 : ℚ)), (1, -2), (2, -2)]) + 1 ∧
      (∀ p ∈ [((0 : ℤ), (-2 : ℚ)), (1, -2), (2, -2)],
        p.1 ≤ lastMonth (monthlyOf [((0 : ℤ), (-2 : ℚ)), (1, -2), (2, -2)])) ∧
      (∀ p ∈ pts, p.lo ≤ p.yhat ∧ p.yhat ≤ p.hi)) :=
  ⟨⟨by decide, by decide, by decide, by decide⟩,
   forecast_expenses_tail_shape dfFc3 2 1 [(0, -2), (1, -2), (2, -2)]
     (by decide) (by decide) (by decide) (by decide)⟩

/-! ## Anomaly detector claims -/

theorem isoLabels_mem (vals : List ℚ) :
    ∀ v ∈ isoLabels vals, v = Cell.str "Normal" ∨ v = Cell.str "Anomaly" := by
  intro v hv
  unfold isoLabels at hv
  simp only [List.mem_map] at hv
  obtain ⟨x, -, rfl⟩ := hv
  split
  · exact Or.inl rfl
  · exact Or.inr rfl

theorem isoLabels_length (vals : List ℚ) : (isoLabels vals).length = vals.length := by
  simp [isoLabels]

theorem filterMap_length_all_isSome {α β : Type} {f : α → Option β} :
    ∀ {l : List α}, (∀ x ∈ l, (f x).isSome) → (l.filterMap f).length = l.length := by
  intro l
  induction l with
  | nil => simp
  | cons a t ih =>
      intro hall
      rw [List.filterMap_cons]
      cases hfa : f a with
      | none =>
          have := hall a (List.mem_cons_self a t)
          rw [hfa] at this
          simp at this
      | some b =>
          simp only [List.length_cons]
          rw [ih (fun x hx => hall x (List.mem_cons_of_mem a hx))]

theorem coercedAmounts_shape {df : DF} {cs : List Cell}
    (hcs : coercedAmounts df = some cs) :
    cs.length = df.rows.length ∧ ∀ v ∈ cs, numOrNull v := by
  unfold coercedAmounts at hcs
  cases hj : df.colIdx "Amount" <;> rw [hj] at hcs
  · simp at hcs
  · simp only [Option.map_some', Option.some.injEq] at hcs
    subst hcs
    refine ⟨by simp, ?_⟩
    intro v hv
    simp only [List.mem_map] at hv
    obtain ⟨r, -, rfl⟩ := hv
    exact toNumeric_numOrNull _

/-- C5 (amended): with an `Amount` column and at least one row,
`detect_anomalies` coerces the amounts to numeric and hands the whole column
to the isolation forest; it fails precisely when a null (non-numeric entry)
remains, and succeeds otherwise, attaching a `Normal`/`Anomaly` label to
every row. -/
theorem detect_anomalies_gate (df : DF) (cs : List Cell) (hwf : df.WF)
    (hcs : coercedAmounts df = some cs) (hne : df.rows ≠ []) :
    (Cell.null ∈ cs → detectAnomalies df = .error .nonFiniteInput) ∧
    (Cell.null ∉ cs → ∃ out, detectAnomalies df = .ok out ∧
      out.rows.length = df.rows.length ∧
      ∃ j, out.colIdx "Anomaly" = some j ∧
        ∀ r ∈ out.rows, cellAt r j = Cell.str "Normal" ∨ cellAt r j = Cell.str "Anomaly") := by
  obtain ⟨hlen, hnn⟩ := coercedAmounts_shape hcs
  unfold detectAnomalies
  rw [hcs]
  dsimp only
  rw [if_neg hne]
  constructor
  · intro hm
    rw [if_pos hm]
  · intro hm
    rw [if_neg hm]
    have hsome : ∀ v ∈ cs, (cellQ v).isSome := by
      intro v hv
      rcases hnn v hv with hnull | ⟨q, rfl⟩
      · exact absurd (hnull ▸ hv) hm
      · rfl
    have hlab : (isoLabels (cs.filterMap cellQ)).length =
        (df.setVals "Amount" cs).rows.length := by
      rw [isoLabels_length, filterMap_length_all_isSome hsome,
        rows_length_setVals df "Amount" hlen, hlen]
    refine ⟨_, rfl, ?_, ?_⟩
    · rw [rows_length_setVals _ "Anomaly" hlab, rows_length_setVals df "Amount" hlen]
    · obtain ⟨j, hj, hP⟩ :=
        colPred_setVals_self (P := fun v =>
          v = Cell.str "Normal" ∨ v = Cell.str "Anomaly")
          (WF_setVals hwf "Amount") (isoLabels_mem _)
      exact ⟨j, hj, hP⟩

/-- One non-numeric amount among valid ones. -/
def dfAnomBad : DF := ⟨["Amount"], [[.str "abc"], [.num 5]]⟩

/-- An all-numeric amount column. -/
def dfAnomGood : DF := ⟨["Amount"], [[.num 5], [.num 6]]⟩

/-- C5 counterexample: a table with an `Amount` column and one non-numeric
entry among the rows makes `detect_anomalies` fail: the nulls produced by
the coercion are passed to `IsolationForest.fit`, which rejects non-finite
input, rather than being excluded from fitting. -/
theorem detect_anomalies_fails_on_non_numeric :
    "Amount" ∈ dfAnomBad.cols ∧ dfAnomBad.rows.length = 2 ∧
    detectAnomalies dfAnomBad = .error .nonFiniteInput :=
  ⟨by decide, by decide, by decide⟩

/-- Witness for C5 on both sides of the gate. -/
theorem detect_anomalies_gate_witness :
    (coercedAmounts dfAnomBad = some [Cell.null, Cell.num 5] ∧
      detectAnomalies dfAnomBad = .error .nonFiniteInput) ∧
    (coercedAmounts dfAnomGood = some [Cell.num 5, Cell.num 6] ∧
      ∃ out, detectAnomalies dfAnomGood = .ok out ∧
        out.rows.length = dfAnomGood.rows.length ∧
        ∃ j, out.colIdx "Anomaly" = some j ∧
          ∀ r ∈ out.rows, cellAt r j = Cell.str "Normal" ∨ cellAt r j = Cell.str "Anomaly") :=
  ⟨⟨by decide,
    (detect_anomalies_gate dfAnomBad [Cell.null, Cell.num 5] (by decide) (by decide)
      (by decide)).1 (by decide)⟩,
   ⟨by decide,
    (detect_anomalies_gate dfAnomGood [Cell.num 5, Cell.num 6] (by decide) (by decide)
      (by decide)).2 (by decide)⟩⟩

/-! ## Mutation of the caller's table (`validate_dataset` side effects) -/

theorem column_setCat_ne {d : DF} {c' : String} (hwf : d.WF)
    (cc? : Option String) (h : c' ≠ "Category") :
    (setCat d cc?).column c' = d.column c' := by
  cases cc? with
  | some cc => exact column_mapSetFrom_ne _ _ _ hwf (Ne.symm h)
  | none => exact column_mapSet_ne _ hwf (Ne.symm h)

theorem column_setDesc_ne {d : DF} {c' : String} (hwf : d.WF)
    (xc? : Option String) (h : c' ≠ "Description") :
    (setDesc d xc?).column c' = d.column c' := by
  cases xc? with
  | some xc => exact column_mapSetFrom_ne _ _ _ hwf (Ne.symm h)
  | none => exact column_mapSet_ne _ hwf (Ne.symm h)

theorem column_setTypeIfAbsent_ne {d : DF} {c' : String} (hwf : d.WF)
    (h : c' ≠ "Type") : (setTypeIfAbsent d).column c' = d.column c' := by
  unfold setTypeIfAbsent
  split
  · rfl
  · exact column_mapSetFrom_ne _ _ _ hwf (Ne.symm h)

theorem column_assignTail_ne {d2 : DF} {c' : String} (hwf : d2.WF)
    (cc? xc? : Option String)
    (hc : c' ≠ "Category" ∧ c' ≠ "Description" ∧ c' ≠ "Type") :
    (assignTail d2 cc? xc?).column c' = d2.column c' := by
  unfold assignTail
  rw [column_setTypeIfAbsent_ne (WF_setDesc (WF_setCat hwf cc?) xc?) hc.2.2,
    column_setDesc_ne (WF_setCat hwf cc?) xc? hc.2.1,
    column_setCat_ne hwf cc? hc.1]

theorem rows_length_setCat (d : DF) (cc? : Option String) :
    (setCat d cc?).rows.length = d.rows.length := by
  cases cc? with
  | some cc => exact rows_length_mapSetFrom d _ _ _
  | none => exact rows_length_mapSet d _ _

theorem rows_length_setDesc (d : DF) (xc? : Option String) :
    (setDesc d xc?).rows.length = d.rows.length := by
  cases xc? with
  | some xc => exact rows_length_mapSetFrom d _ _ _
  | none => exact rows_length_mapSet d _ _

theorem rows_length_setTypeIfAbsent (d : DF) :
    (setTypeIfAbsent d).rows.length = d.rows.length := by
  unfold setTypeIfAbsent
  split
  · rfl
  · exact rows_length_mapSetFrom d _ _ _

theorem rows_length_assignTail (d2 : DF) (cc? xc? : Option String) :
    (assignTail d2 cc? xc?).rows.length = d2.rows.length := by
  unfold assignTail
  rw [rows_length_setTypeIfAbsent, rows_length_setDesc, rows_length_setCat]

/-- C9 (amended): the mutation `validate_dataset` performs on the caller's
frame object is confined to the five canonical columns: every other column
is left unchanged and the row count of the caller's object is preserved, on
every path (success or `st.stop`).  Anomaly detection and forecasting take a
file path and build their own frame, so they have no caller table to mutate. -/
theorem validate_dataset_mutation_confined (df : DF) (hwf : df.WF) (c : String)
    (hc : c ≠ "Date" ∧ c ≠ "Amount" ∧ c ≠ "Category" ∧ c ≠ "Description" ∧ c ≠ "Type") :
    (validateCallerView df).column c = df.column c ∧
    (validateCallerView df).rows.length = df.rows.length := by
  unfold validateCallerView validateAssign
  cases hdc : detectColumn df dateKeys
  · exact ⟨rfl, rfl⟩
  case some dc =>
    dsimp only
    obtain ⟨g, hg⟩ := colPred_mapSetFrom_exists df "Date" dc toDatetime
    have hwf1 : (df.mapSetFrom "Date" dc toDatetime).WF := WF_mapSetFrom hwf _ _ _
    have hcol1 : (df.mapSetFrom "Date" dc toDatetime).column c = df.column c := by
      rw [hg]; exact column_mapSet_ne g hwf (Ne.symm hc.1)
    have hlen1 : (df.mapSetFrom "Date" dc toDatetime).rows.length = df.rows.length :=
      rows_length_mapSetFrom df _ _ _
    cases hac : detectColumn df amountKeys
    case some ac =>
      dsimp only
      have hwf2 : ((df.mapSetFrom "Date" dc toDatetime).mapSetFrom
          "Amount" ac toNumeric).WF := WF_mapSetFrom hwf1 _ _ _
      constructor
      · rw [column_assignTail_ne hwf2 _ _ ⟨hc.2.2.1, hc.2.2.2.1, hc.2.2.2.2⟩,
          column_mapSetFrom_ne _ _ _ hwf1 (Ne.symm hc.2.1), hcol1]
      · rw [rows_length_assignTail, rows_length_mapSetFrom, hlen1]
    case none =>
      dsimp only
      split
      · rename_i d' e' heq
        split at heq
        · split at heq
          case _ vals hfb => simp at heq
          case _ hfb =>
            simp only [Prod.mk.injEq] at heq
            obtain ⟨rfl, -⟩ := heq
            exact ⟨hcol1, hlen1⟩
        · simp only [Prod.mk.injEq] at heq
          obtain ⟨rfl, -⟩ := heq
          exact ⟨hcol1, hlen1⟩
      · rename_i d2 heq
        split at heq
        · split at heq
          case _ vals hfb =>
            simp only [Prod.mk.injEq] at heq
            obtain ⟨rfl, -⟩ := heq
            have hvlen : vals.length =
                (df.mapSetFrom "Date" dc toDatetime).rows.length :=
              fallbackAmounts_length hfb
            have hwf2 : ((df.mapSetFrom "Date" dc toDatetime).setVals
                "Amount" vals).WF := WF_setVals hwf1 _
            constructor
            · rw [column_assignTail_ne hwf2 _ _ ⟨hc.2.2.1, hc.2.2.2.1, hc.2.2.2.2⟩,
                column_setVals_ne hwf1 hvlen (Ne.symm hc.2.1), hcol1]
            · rw [rows_length_assignTail, rows_length_setVals _ _ hvlen, hlen1]
          case _ hfb => simp at heq
        · simp at heq

/-- A caller's table before `validate_dataset`. -/
def dfMut : DF := ⟨["day", "value"], [[.date 5, .num 3]]⟩

/-- The canonical table `validate_dataset` returns for `dfMut`. -/
def dfMutOut : DF := ⟨["day", "value", "Date", "Amount", "Category", "Description", "Type"],
  [[.date 5, .num 3, .date 5, .num 3, .str "Uncategorized", .str "Unknown", .str "Income"]]⟩

/-- C9 counterexample: `validate_dataset` succeeds on `dfMut`, yet the
caller's frame object is no longer equal to what was passed in — the
function assigned the canonical columns to it in place. -/
theorem validate_dataset_mutates_input :
    validateDataset dfMut = .ok dfMutOut ∧ validateCallerView dfMut ≠ dfMut :=
  ⟨by decide, by decide⟩

/-- Witness for C9 (amended) at a concrete frame and untouched column. -/
theorem validate_dataset_mutation_confined_witness :
    (dfMut.WF ∧ "value" ≠ "Date") ∧
    ((validateCallerView dfMut).column "value" = dfMut.column "value" ∧
      (validateCallerView dfMut).rows.length = dfMut.rows.length) :=
  ⟨⟨by decide, by decide⟩,
   validate_dataset_mutation_confined dfMut (by decide) "value"
     ⟨by decide, by decide, by decide, by decide, by decide⟩⟩

/-! ## Cleaning step claims -/

theorem dedupAux_not_mem_seen :
    ∀ {seen l : List (List Cell)} {r : List Cell}, r ∈ dedupAux seen l → r ∉ seen := by
  intro seen l
  induction l generalizing seen with
  | nil => intro r hr; simp [dedupAux] at hr
  | cons r0 t ih =>
      intro r hr
      unfold dedupAux at hr
      split at hr
      · exact ih hr
      · rename_i hr0
        rcases List.mem_cons.mp hr with rfl | hr'
        · exact hr0
        · intro hseen
          exact (ih hr') (List.mem_cons_of_mem r0 hseen)

theorem dedupAux_pairwise :
    ∀ {seen l : List (List Cell)}, (dedupAux seen l).Pairwise (· ≠ ·) := by
  intro seen l
  induction l generalizing seen with
  | nil => exact List.Pairwise.nil
  | cons r0 t ih =>
      unfold dedupAux
      split
      · exact ih
      · refine List.Pairwise.cons ?_ ih
        intro r' hr' heq
        exact (dedupAux_not_mem_seen hr') (heq ▸ List.mem_cons_self _ _)

theorem dedupAux_sub :
    ∀ {seen l : List (List Cell)} {r : List Cell}, r ∈ dedupAux seen l → r ∈ l := by
  intro seen l
  induction l generalizing seen with
  | nil => intro r hr; simp [dedupAux] at hr
  | cons r0 t ih =>
      intro r hr
      unfold dedupAux at hr
      split at hr
      · exact List.mem_cons_of_mem _ (ih hr)
      · rcases List.mem_cons.mp hr with rfl | hr'
        · exact List.mem_cons_self _ _
        · exact List.mem_cons_of_mem _ (ih hr')

theorem cellAt_mem {r : List Cell} {i : ℕ} (h : i < r.length) : cellAt r i ∈ r := by
  unfold cellAt
  rw [List.get?_eq_getElem?, List.getElem?_eq_getElem h]
  exact List.getElem_mem h

theorem cellQ_isSome {c : Cell} : (cellQ c).isSome = true ↔ ∃ q : ℚ, c = .num q := by
  cases c <;> simp [cellQ]

theorem colIdx_cleanDedupDropna (df : DF) (c : String) :
    (cleanDedupDropna df).colIdx c =
      (df.mapSetFrom "Date" "Date" toDatetime).colIdx c := rfl

theorem WF_cleanDedupDropna {df : DF} (hwf : df.WF) : (cleanDedupDropna df).WF := by
  have hwf1 : (df.mapSetFrom "Date" "Date" toDatetime).WF := WF_mapSetFrom hwf _ _ _
  intro r hr
  have hr' := List.mem_filter.mp hr
  exact hwf1 r (dedupAux_sub hr'.1)

theorem cleanDedupDropna_no_null {df : DF} :
    ∀ r ∈ (cleanDedupDropna df).rows, ∀ cell ∈ r, cell ≠ Cell.null := by
  intro r hr cell hcell
  have hr' := (List.mem_filter.mp hr).2
  unfold rowNoNull at hr'
  rw [List.all_eq_true] at hr'
  have := hr' cell hcell
  intro hnull
  rw [hnull] at this
  simp [Cell.isNull] at this

/-- C10 (amended): `clean_transactions` deduplicates and drops rows with a
missing value in any column (not only date/amount): the table after that
stage has pairwise-distinct rows and no null in any field, and the final
output keeps its row count with non-null dates and numeric amounts.  The
subsequent `Category` title-casing can, however, re-introduce exact
duplicates (and nulls for non-string categories), so the final output itself
is not duplicate-free. -/
theorem clean_transactions_dedup_scope (df out : DF) (hwf : df.WF)
    (h : cleanTransactions df = .ok out) :
    (cleanDedupDropna df).rows.Pairwise (· ≠ ·) ∧
    (∀ r ∈ (cleanDedupDropna df).rows, ∀ cell ∈ r, cell ≠ Cell.null) ∧
    out.rows.length = (cleanDedupDropna df).rows.length ∧
    ∃ i j, out.colIdx "Date" = some i ∧ out.colIdx "Amount" = some j ∧
      ∀ r ∈ out.rows, cellAt r i ≠ Cell.null ∧ ∃ q : ℚ, cellAt r j = Cell.num q := by
  refine ⟨List.Pairwise.sublist (List.filter_sublist _) dedupAux_pairwise,
    cleanDedupDropna_no_null, ?_⟩
  unfold cleanTransactions at h
  split at h
  · simp at h
  have hwf2 : (cleanDedupDropna df).WF := WF_cleanDedupDropna hwf
  obtain ⟨i, hi, -⟩ :
      colPred (df.mapSetFrom "Date" "Date" toDatetime) "Date" (fun _ => True) :=
    colPred_mapSetFrom_self _ _ hwf (fun _ => trivial)
  have hi2 : (cleanDedupDropna df).colIdx "Date" = some i := by
    rw [colIdx_cleanDedupDropna]; exact hi
  have hdate2 : colPred (cleanDedupDropna df) "Date" (· ≠ Cell.null) := by
    refine ⟨i, hi2, ?_⟩
    intro r hr
    have hilt : i < r.length := by
      rw [hwf2 r hr]
      exact colIdx_lt hi2
    exact cleanDedupDropna_no_null r hr _ (cellAt_mem hilt)
  dsimp only at h
  cases hcc : (cleanDedupDropna df).colIdx "Category" <;> rw [hcc] at h
  · simp at h
  case some cc =>
    dsimp only at h
    have hwf3 : ((cleanDedupDropna df).mapSetFrom "Category" "Category"
        strTitleCell).WF := WF_mapSetFrom hwf2 _ _ _
    cases hja : ((cleanDedupDropna df).mapSetFrom "Category" "Category"
        strTitleCell).colIdx "Amount" <;> rw [hja] at h
    · simp at h
    case some j =>
      dsimp only at h
      split at h
      · rename_i hall
        simp only [Except.ok.injEq] at h
        subst h
        have hdate3 : colPred ((cleanDedupDropna df).mapSetFrom "Category"
            "Category" strTitleCell) "Date" (· ≠ Cell.null) :=
          colPred_mapSetFrom_ne _ _ _ hwf2 (by decide) hdate2
        have hamt3 : colPred ((cleanDedupDropna df).mapSetFrom "Category"
            "Category" strTitleCell) "Amount" (fun c => ∃ q : ℚ, c = .num q) := by
          refine ⟨j, hja, ?_⟩
          intro r hr
          rw [List.all_eq_true] at hall
          exact cellQ_isSome.mp (hall r hr)
        have hdate4 := colPred_mapSetFrom_ne "Type" "Amount" deriveType hwf3
          (by decide) hdate3
        have hamt4 := colPred_mapSetFrom_ne "Type" "Amount" deriveType hwf3
          (by decide) hamt3
        obtain ⟨i', hi', hd⟩ := hdate4
        obtain ⟨j', hj', ha⟩ := hamt4
        refine ⟨by rw [rows_length_mapSetFrom, rows_length_mapSetFrom], i', j', hi', hj', ?_⟩
        intro r hr
        exact ⟨hd r hr, ha r hr⟩
      · simp at h

/-- Two rows identical except for the capitalization of `Category`. -/
def dfClean : DF := ⟨["Date", "Amount", "Category"],
  [[.date 0, .num (-5), .str "food"], [.date 0, .num (-5), .str "FOOD"]]⟩

/-- What `clean_transactions` produces for `dfClean`. -/
def dfCleanOut : DF := ⟨["Date", "Amount", "Category", "Type"],
  [[.date 0, .num (-5), .str "Food", .str "Expense"],
   [.date 0, .num (-5), .str "Food", .str "Expense"]]⟩

/-- C10 counterexample: the two input rows are distinct, so `drop_duplicates`
keeps both; after the later `Category` title-casing they become identical,
and the final output contains an exact duplicate row. -/
theorem clean_transactions_output_duplicates :
    cleanTransactions dfClean = .ok dfCleanOut ∧
    dfClean.rows.get? 0 ≠ dfClean.rows.get? 1 ∧
    dfCleanOut.rows.length = 2 ∧
    dfCleanOut.rows.get? 0 = dfCleanOut.rows.get? 1 :=
  ⟨by decide, by decide, by decide, by decide⟩

/-- Witness for C10 (amended) at `dfClean`. -/
theorem clean_transactions_dedup_scope_witness :
    (dfClean.WF ∧ cleanTransactions dfClean = .ok dfCleanOut) ∧
    ((cleanDedupDropna dfClean).rows.Pairwise (· ≠ ·) ∧
      (∀ r ∈ (cleanDedupDropna dfClean).rows, ∀ cell ∈ r, cell ≠ Cell.null) ∧
      dfCleanOut.rows.length = (cleanDedupDropna dfClean).rows.length ∧
      ∃ i j, dfCleanOut.colIdx "Date" = some i ∧ dfCleanOut.colIdx "Amount" = some j ∧
        ∀ r ∈ dfCleanOut.rows, cellAt r i ≠ Cell.null ∧
          ∃ q : ℚ, cellAt r j = Cell.num q) :=
  ⟨⟨by decide, by decide⟩,
   clean_transactions_dedup_scope dfClean dfCleanOut (by decide) (by decide)⟩

end PF

